import Mathlib

/-!
# Verification of the POS tag-aggregation pipeline

Shallow embedding of the aggregation operations of `pos_tagger.py`
(`get_pos_statistics`, `extract_phrases`, `analyze_sentence_structure`)
and proofs of the specification's claims about them.

The external NLP collaborator (spaCy) produces the token stream and the
noun-chunk spans; both are modelled as inputs.  A token's `head` is the
index of its syntactic head in the token sequence (spaCy stores a direct
reference; indices are the standard shallow embedding of references).
A token's syntactic children are the tokens whose head index points at it,
excluding the token itself, in left-to-right order — exactly spaCy's
`Token.children` (lefts then rights, which is index order).
-/

/-- A tagged token as the aggregation code sees it: the fields of the
spaCy token read by `pos_tagger.py` (and copied into its `POSTag`
dataclass).  `head` is the index of the syntactic head token. -/
structure Token where
  text : String
  pos : String
  tag : String
  «lemma» : String
  is_punct : Bool
  is_space : Bool
  is_stop : Bool
  dep : String
  head : Nat
deriving DecidableEq, Repr

/-- Result record of `get_pos_statistics`.  Python returns a dict; the
fields are its four keys.  Counts are an insertion-ordered association
list, modelling the Python `dict`; percentages are exact rationals
modelling the float computation `(count / total_words) * 100`. -/
structure POSStatistics where
  total_words : Nat
  pos_counts : List (String × Nat)
  pos_percentages : List (String × ℚ)
  unique_pos_tags : Nat
deriving DecidableEq, Repr

/-- A noun-chunk span as reported by the collaborator's chunker
(`doc.noun_chunks`): surface text, root token's text, start/end token
offsets. -/
structure NounChunk where
  text : String
  root : String
  start : Nat
  «end» : Nat
deriving DecidableEq, Repr

/-- One entry of the list returned by `extract_phrases`. -/
structure Phrase where
  text : String
  type : String
  root : String
  start : Nat
  «end» : Nat
deriving DecidableEq, Repr

/-- One dependency record of `analyze_sentence_structure`. -/
structure DepRecord where
  word : String
  dep : String
  head : String
  pos : String
deriving DecidableEq, Repr

/-- Result record of `analyze_sentence_structure`. -/
structure SentenceStructure where
  root : Option String
  root_pos : Option String
  dependencies : List DepRecord
  sentence_length : Nat
deriving DecidableEq, Repr

/-- The filter `not tag.is_space and not tag.is_punct` deciding which
tokens count as words in `get_pos_statistics`. -/
def eligible (t : Token) : Bool :=
  !t.is_space && !t.is_punct

/-- Python `pos_counts[tag.pos] = pos_counts.get(tag.pos, 0) + 1` on a
dict modelled as an insertion-ordered association list with unique keys:
increment the entry of `k` if present, else append `(k, 1)`. -/
def updateCount : List (String × Nat) → String → List (String × Nat)
  | [], k => [(k, 1)]
  | (k', c) :: rest, k =>
      if k' = k then (k', c + 1) :: rest else (k', c) :: updateCount rest k

/-- Lookup `dict.get(k, 0)` on the association-list model. -/
def lookupCount : List (String × Nat) → String → Nat
  | [], _ => 0
  | (k', c) :: rest, k => if k' = k then c else lookupCount rest k

/-- One iteration of the counting loop of `get_pos_statistics`:
state is `(pos_counts, total_words)`. -/
def statsStep (acc : List (String × Nat) × Nat) (t : Token) :
    List (String × Nat) × Nat :=
  if eligible t then (updateCount acc.1 t.pos, acc.2 + 1) else acc

/-- Embedding of `get_pos_statistics` (pos_tagger.py lines 105-126): count tokens that
are neither space nor punctuation by coarse POS, then derive percentages
as `(count / total_words) * 100` and the number of distinct categories. -/
def get_pos_statistics (tags : List Token) : POSStatistics :=
  let acc := tags.foldl statsStep ([], 0)
  { total_words := acc.2
    pos_counts := acc.1
    pos_percentages := acc.1.map fun p => (p.1, (p.2 : ℚ) / (acc.2 : ℚ) * 100)
    unique_pos_tags := acc.1.length }

/-- spaCy `token.children` for the token at index `i`: tokens whose head
index is `i`, other than the token itself, in left-to-right order. -/
def childrenOf (doc : List Token) (i : Nat) : List Token :=
  ((doc.enum.filter fun p => p.2.head == i && !(p.1 == i)).map Prod.snd)

/-- The auxiliary children collected by the verb-phrase loop: children of
the token at index `i` whose dependency label is `aux` or `auxpass`. -/
def auxChildren (doc : List Token) (i : Nat) : List Token :=
  (childrenOf doc i).filter fun c => c.dep == "aux" || c.dep == "auxpass"

/-- The phrase emitted for a VERB token `t` at index `i` (pos_tagger.py
lines 144-159): text is the aux/auxpass children's texts followed by the
verb's text, joined by spaces; span is the single verb token. -/
def verbPhraseOf (doc : List Token) (i : Nat) (t : Token) : Phrase :=
  { text := String.intercalate (" ") ((auxChildren doc i).map Token.text ++ [t.text])
    type := "verb_phrase"
    root := t.text
    start := i
    «end» := i + 1 }

/-- The phrase relayed for a noun chunk (pos_tagger.py lines 134-141). -/
def nounPhraseOf (c : NounChunk) : Phrase :=
  { text := c.text, type := "noun_phrase", root := c.root
    start := c.start, «end» := c.«end» }

/-- Embedding of `extract_phrases` (pos_tagger.py lines 128-161): relay the
collaborator's noun chunks, then emit one verb phrase per VERB token. -/
def extract_phrases (doc : List Token) (noun_chunks : List NounChunk) :
    List Phrase :=
  noun_chunks.map nounPhraseOf ++
    (doc.enum.filter fun p => p.2.pos == "VERB").map fun p =>
      verbPhraseOf doc p.1 p.2

/-- Model of `token.head.text`.  spaCy guarantees the head reference is inside the
document; an out-of-range index (unrepresentable in spaCy) defaults to
`""` in this model. -/
def headTextOf (doc : List Token) (t : Token) : String :=
  ((doc.get? t.head).map Token.text).getD ("")

/-- The dependency records of `analyze_sentence_structure`
(pos_tagger.py lines 171-178). -/
def mkDependencies (doc : List Token) : List DepRecord :=
  doc.map fun t =>
    { word := t.text, dep := t.dep, head := headTextOf doc t, pos := t.pos }

/-- Embedding of `analyze_sentence_structure` (pos_tagger.py lines 163-185).
`root = [token for token in doc if token.dep_ == "ROOT"][0] if doc else None`:
on a non-empty document with no ROOT token the indexing `[0]` of the empty
comprehension raises `IndexError`, modelled as `Except.error`. -/
def analyze_sentence_structure (doc : List Token) :
    Except String SentenceStructure :=
  if doc.isEmpty then
    Except.ok { root := none, root_pos := none
                dependencies := mkDependencies doc
                sentence_length := doc.length }
  else
    match doc.filter (fun t => t.dep == "ROOT") with
    | [] => Except.error ("IndexError: list index out of range")
    | r :: _ =>
        Except.ok { root := some r.text, root_pos := some r.pos
                    dependencies := mkDependencies doc
                    sentence_length := doc.length }

/-! ## Concrete tokens used by witnesses and counterexamples -/

/-- Token "The" (DET), as in the spec's four-token scenario. -/
def tokThe : Token :=
  { text := "The", pos := "DET", tag := "DT", «lemma» := "the"
    is_punct := false, is_space := false, is_stop := true
    dep := "det", head := 2 }

/-- Token "quick" (ADJ). -/
def tokQuick : Token :=
  { text := "quick", pos := "ADJ", tag := "JJ", «lemma» := "quick"
    is_punct := false, is_space := false, is_stop := false
    dep := "amod", head := 2 }

/-- Token "fox" (NOUN). -/
def tokFox : Token :=
  { text := "fox", pos := "NOUN", tag := "NN", «lemma» := "fox"
    is_punct := false, is_space := false, is_stop := false
    dep := "nsubj", head := 3 }

/-- Token "jumps" (VERB, ROOT). -/
def tokJumps : Token :=
  { text := "jumps", pos := "VERB", tag := "VBZ", «lemma» := "jump"
    is_punct := false, is_space := false, is_stop := false
    dep := "ROOT", head := 3 }

/-- The spec's four-token scenario input. -/
def fourTokens : List Token := [tokThe, tokQuick, tokFox, tokJumps]

/-! ## Counting lemmas -/

/-- Total of the counts stored in an association list. -/
def countSum (m : List (String × Nat)) : Nat :=
  (m.map Prod.snd).sum

theorem countSum_updateCount (m : List (String × Nat)) (k : String) :
    countSum (updateCount m k) = countSum m + 1 := by
  induction m with
  | nil => simp [updateCount, countSum]
  | cons e rest ih =>
      obtain ⟨k', c⟩ := e
      by_cases h : k' = k
      · simp [updateCount, h, countSum]
        omega
      · simp only [updateCount, if_neg h]
        simp only [countSum, List.map_cons, List.sum_cons] at ih ⊢
        omega

theorem lookupCount_updateCount (m : List (String × Nat)) (k p : String) :
    lookupCount (updateCount m k) p =
      lookupCount m p + (if k = p then 1 else 0) := by
  induction m with
  | nil =>
      by_cases h : k = p <;> simp [updateCount, lookupCount, h]
  | cons e rest ih =>
      obtain ⟨k', c⟩ := e
      by_cases hk : k' = k
      · subst hk
        by_cases hp : k' = p <;> simp [updateCount, lookupCount, hp]
      · simp only [updateCount, if_neg hk, lookupCount]
        by_cases hp : k' = p
        · have hkp : ¬k = p := fun h => hk (hp.trans h.symm)
          simp [hp, hkp]
        · simp [hp, ih]

theorem foldl_statsStep_snd (tags : List Token) :
    ∀ acc, (tags.foldl statsStep acc).2 =
      acc.2 + (tags.filter eligible).length := by
  induction tags with
  | nil => intro acc; simp
  | cons t ts ih =>
      intro acc
      by_cases h : eligible t
      · simp [statsStep, h, ih]
        omega
      · simp [statsStep, h, ih]

theorem foldl_statsStep_countSum (tags : List Token) :
    ∀ acc, countSum (tags.foldl statsStep acc).1 =
      countSum acc.1 + (tags.filter eligible).length := by
  induction tags with
  | nil => intro acc; simp
  | cons t ts ih =>
      intro acc
      by_cases h : eligible t
      · simp [statsStep, h, ih, countSum_updateCount]
        omega
      · simp [statsStep, h, ih]

theorem foldl_statsStep_lookup (tags : List Token) :
    ∀ acc p, lookupCount (tags.foldl statsStep acc).1 p =
      lookupCount acc.1 p +
        (tags.filter fun t => eligible t && t.pos == p).length := by
  induction tags with
  | nil => intro acc p; simp
  | cons t ts ih =>
      intro acc p
      by_cases h : eligible t
      · by_cases hp : t.pos = p
        · simp [statsStep, h, hp, ih, lookupCount_updateCount]
          omega
        · simp [statsStep, h, hp, ih, lookupCount_updateCount]
      · simp [statsStep, h, ih]

theorem foldl_statsStep_of_no_eligible (tags : List Token) :
    ∀ acc, (∀ t ∈ tags, ¬eligible t = true) →
      tags.foldl statsStep acc = acc := by
  induction tags with
  | nil => intro acc _; rfl
  | cons t ts ih =>
      intro acc h
      have ht : ¬eligible t = true := h t (by simp)
      simp only [List.foldl_cons, statsStep, if_neg ht]
      exact ih acc fun u hu => h u (by simp [hu])

theorem percSum (m : List (String × Nat)) (T : ℚ) :
    ((m.map fun p => (p.1, (p.2 : ℚ) / T * 100)).map Prod.snd).sum =
      (countSum m : ℚ) / T * 100 := by
  induction m with
  | nil => simp [countSum]
  | cons e rest ih =>
      rw [List.map_cons, List.map_cons, List.sum_cons, ih]
      have hc : ((countSum (e :: rest) : ℚ)) = (e.2 : ℚ) + (countSum rest : ℚ) := by
        simp [countSum]
      rw [hc, add_div, add_mul]

/-! ## Claims about `get_pos_statistics` -/

/-- C2: whenever the total eligible word count is positive, the values of
`pos_percentages` sum to exactly 100 (in exact rational arithmetic). -/
theorem claim_C2 (tags : List Token)
    (h : 0 < (get_pos_statistics tags).total_words) :
    ((get_pos_statistics tags).pos_percentages.map Prod.snd).sum = 100 := by
  have hcs : countSum (tags.foldl statsStep ([], 0)).1 =
      (tags.foldl statsStep ([], 0)).2 := by
    have h1 := foldl_statsStep_countSum tags ([], 0)
    have h2 := foldl_statsStep_snd tags ([], 0)
    have h0 : countSum (([] : List (String × Nat)), (0 : Nat)).1 = 0 := rfl
    have h0' : ((([] : List (String × Nat)), (0 : Nat)) :
        List (String × Nat) × Nat).2 = 0 := rfl
    omega
  have hperc : (get_pos_statistics tags).pos_percentages =
      (tags.foldl statsStep ([], 0)).1.map
        (fun p => (p.1, (p.2 : ℚ) / ((tags.foldl statsStep ([], 0)).2 : ℚ) * 100)) := rfl
  have hT : (((tags.foldl statsStep ([], 0)).2 : ℚ)) ≠ 0 := by
    have h' : (tags.foldl statsStep ([], 0)).2 ≠ 0 := by
      have hpos : 0 < (tags.foldl statsStep ([], 0)).2 := h
      omega
    exact Nat.cast_ne_zero.mpr h'
  rw [hperc, percSum, hcs, div_self hT, one_mul]

/-- C4: all three operations succeed on the empty token sequence with
zero/empty/null results. -/
theorem claim_C4 :
    get_pos_statistics [] =
      { total_words := 0, pos_counts := [], pos_percentages := [],
        unique_pos_tags := 0 } ∧
    extract_phrases [] [] = [] ∧
    analyze_sentence_structure [] =
      Except.ok { root := none, root_pos := none, dependencies := [],
                  sentence_length := 0 } :=
  ⟨rfl, rfl, rfl⟩

/-- C5: `get_pos_statistics` counts exactly the non-space non-punctuation
tokens by coarse POS, `total_words` is the sum of the counts, each
percentage is `100 × count / total_words`, and on the four-token scenario
it returns total 4, four counts of 1, four percentages of 25, and 4
distinct categories. -/
theorem claim_C5 :
    (∀ tags : List Token,
      (get_pos_statistics tags).total_words = (tags.filter eligible).length ∧
      countSum (get_pos_statistics tags).pos_counts =
        (get_pos_statistics tags).total_words ∧
      (∀ p : String, lookupCount (get_pos_statistics tags).pos_counts p =
        (tags.filter fun t => eligible t && t.pos == p).length) ∧
      (get_pos_statistics tags).pos_percentages =
        (get_pos_statistics tags).pos_counts.map
          (fun q => (q.1, (q.2 : ℚ) /
            ((get_pos_statistics tags).total_words : ℚ) * 100))) ∧
    get_pos_statistics fourTokens =
      { total_words := 4
        pos_counts := [("DET", 1), ("ADJ", 1), ("NOUN", 1), ("VERB", 1)]
        pos_percentages := [("DET", 25), ("ADJ", 25), ("NOUN", 25), ("VERB", 25)]
        unique_pos_tags := 4 } := by
  constructor
  · intro tags
    refine ⟨?_, ?_, ?_, rfl⟩
    · have h2 := foldl_statsStep_snd tags ([], 0)
      simpa using h2
    · have h1 := foldl_statsStep_countSum tags ([], 0)
      have h2 := foldl_statsStep_snd tags ([], 0)
      have h0 : countSum (([] : List (String × Nat)), (0 : Nat)).1 = 0 := rfl
      have h0' : ((([] : List (String × Nat)), (0 : Nat)) :
          List (String × Nat) × Nat).2 = 0 := rfl
      show countSum (tags.foldl statsStep ([], 0)).1 =
        (tags.foldl statsStep ([], 0)).2
      omega
    · intro p
      have h3 := foldl_statsStep_lookup tags ([], 0) p
      simpa [lookupCount] using h3
  · simp [get_pos_statistics, statsStep, updateCount, eligible, fourTokens,
      tokThe, tokQuick, tokFox, tokJumps]
    norm_num

/-- C6: when the total eligible word count is zero the counts map is
empty, hence the percentage map (computed by mapping over the counts) is
empty and the division `count / total_words` is never performed. -/
theorem claim_C6 (tags : List Token)
    (h : (get_pos_statistics tags).total_words = 0) :
    (get_pos_statistics tags).pos_counts = [] ∧
    (get_pos_statistics tags).pos_percentages = [] := by
  have h2 := foldl_statsStep_snd tags ([], 0)
  have hlen : (tags.filter eligible).length = 0 := by
    have h' : (tags.foldl statsStep ([], 0)).2 = 0 := h
    omega
  have hnil : tags.filter eligible = [] := List.length_eq_zero.mp hlen
  have hno : ∀ t ∈ tags, ¬eligible t = true := by
    intro t ht
    exact (List.filter_eq_nil_iff.mp hnil) t ht
  have hfold : tags.foldl statsStep ([], 0) = ([], 0) :=
    foldl_statsStep_of_no_eligible tags ([], 0) hno
  constructor
  · show (tags.foldl statsStep ([], 0)).1 = []
    rw [hfold]
  · show ((tags.foldl statsStep ([], 0)).1.map _) = []
    rw [hfold]
    rfl

/-- Witness for C2 at the four-token scenario input. -/
theorem claim_C2_witness :
    0 < (get_pos_statistics fourTokens).total_words ∧
    ((get_pos_statistics fourTokens).pos_percentages.map Prod.snd).sum = 100 :=
  ⟨by decide, claim_C2 fourTokens (by decide)⟩

/-- A lone whitespace token, as spaCy emits for stray spaces. -/
def tokSpace : Token :=
  { text := " ", pos := "SPACE", tag := "_SP", «lemma» := " "
    is_punct := false, is_space := true, is_stop := false
    dep := "dep", head := 0 }

/-- Witness for C6 at a one-token sequence holding only whitespace. -/
theorem claim_C6_witness :
    (get_pos_statistics [tokSpace]).total_words = 0 ∧
    (get_pos_statistics [tokSpace]).pos_counts = [] ∧
    (get_pos_statistics [tokSpace]).pos_percentages = [] :=
  ⟨by decide, (claim_C6 [tokSpace] (by decide)).1, (claim_C6 [tokSpace] (by decide)).2⟩

/-! ## Lemmas about `extract_phrases` -/

theorem pairwise_trivial {α : Type} {R : α → α → Prop} (h : ∀ a b, R a b) :
    ∀ l : List α, l.Pairwise R := by
  intro l
  induction l with
  | nil => exact List.Pairwise.nil
  | cons x xs ih => exact List.Pairwise.cons (fun b _ => h x b) ih

theorem enumFrom_filter_fst_eq_nil (l : List Token) :
    ∀ n m, m < n → (List.enumFrom n l).filter (fun p => p.1 == m) = [] := by
  induction l with
  | nil => intro n m _; rfl
  | cons x xs ih =>
      intro n m h
      have hne : n ≠ m := by omega
      simp only [List.enumFrom_cons, List.filter_cons]
      have : ((n, x).1 == m) = false := by simpa using hne
      rw [this]
      simp only [Bool.false_eq_true, if_false]
      exact ih (n + 1) m (by omega)

theorem enumFrom_filter_fst (l : List Token) :
    ∀ n i t, l.get? i = some t →
      (List.enumFrom n l).filter (fun p => p.1 == n + i) = [(n + i, t)] := by
  induction l with
  | nil => intro n i t h; simp at h
  | cons x xs ih =>
      intro n i t h
      cases i with
      | zero =>
          have hx : x = t := by simpa using h
          subst hx
          simp only [List.enumFrom_cons, List.filter_cons, Nat.add_zero]
          have hh : ((n, x).1 == n) = true := by simp
          rw [hh]
          simp only [if_true]
          rw [enumFrom_filter_fst_eq_nil xs (n + 1) n (by omega)]
      | succ j =>
          have h' : xs.get? j = some t := by simpa using h
          have harr : n + (j + 1) = (n + 1) + j := by omega
          simp only [List.enumFrom_cons, List.filter_cons]
          have hne : ((n, x).1 == n + (j + 1)) = false := by
            simp
          rw [hne]
          simp only [Bool.false_eq_true, if_false, harr]
          exact ih (n + 1) j t h'

theorem enum_filter_fst (l : List Token) (i : Nat) (t : Token)
    (h : l.get? i = some t) :
    l.enum.filter (fun p => p.1 == i) = [(i, t)] := by
  have h0 := enumFrom_filter_fst l 0 i t h
  simpa [List.enum_eq_enumFrom] using h0

theorem noun_part_no_verb (chunks : List NounChunk) (f : Phrase → Bool)
    (hf : ∀ c : NounChunk, f (nounPhraseOf c) = false) :
    (chunks.map nounPhraseOf).filter f = [] := by
  rw [List.filter_eq_nil_iff]
  intro a ha
  obtain ⟨c, _, rfl⟩ := List.mem_map.mp ha
  simp [hf c]

theorem verb_filter_extract (doc : List Token) (chunks : List NounChunk) :
    (extract_phrases doc chunks).filter (fun p => p.type == "verb_phrase") =
      (doc.enum.filter fun p => p.2.pos == "VERB").map
        (fun p => verbPhraseOf doc p.1 p.2) := by
  unfold extract_phrases
  rw [List.filter_append]
  rw [noun_part_no_verb chunks _ (fun c => by simp [nounPhraseOf])]
  rw [List.nil_append, List.filter_eq_self.mpr]
  intro a ha
  obtain ⟨p, _, rfl⟩ := List.mem_map.mp ha
  simp [verbPhraseOf]

/-! ## Claims about `extract_phrases` -/

/-- C3: for every VERB token at index `i`, the output contains exactly
one verb phrase starting at `i`; its text is the aux/auxpass children's
surface forms in left-to-right order followed by the verb's surface form,
joined by single spaces, its root is the verb's surface form, and its
span is the single verb token `[i, i+1)`. -/
theorem claim_C3 (doc : List Token) (chunks : List NounChunk) (i : Nat)
    (t : Token) (hget : doc.get? i = some t) (hpos : t.pos = "VERB") :
    (extract_phrases doc chunks).filter
        (fun p => p.type == "verb_phrase" && p.start == i) =
      [{ text := String.intercalate (" ")
            ((auxChildren doc i).map Token.text ++ [t.text])
         type := "verb_phrase", root := t.text, start := i, «end» := i + 1 }] := by
  unfold extract_phrases
  rw [List.filter_append]
  rw [noun_part_no_verb chunks _ (fun c => by simp [nounPhraseOf])]
  rw [List.nil_append, List.filter_map]
  have hpred : ((fun p => p.type == "verb_phrase" && p.start == i) ∘
      fun p : Nat × Token => verbPhraseOf doc p.1 p.2) =
      fun p : Nat × Token => p.1 == i := by
    funext p
    simp [verbPhraseOf]
  rw [hpred, List.filter_filter]
  have hcomm : (fun a : Nat × Token =>
      (a.1 == i) && (a.2.pos == "VERB")) =
      fun a : Nat × Token => (a.2.pos == "VERB") && (a.1 == i) := by
    funext a
    exact Bool.and_comm _ _
  rw [hcomm, ← List.filter_filter, enum_filter_fst doc i t hget]
  have ht : (t.pos == "VERB") = true := by simp [hpos]
  simp only [List.filter_cons, ht, List.filter_nil, if_true]
  simp [verbPhraseOf]

/-- The scenario input of the spec: "is" (AUX, dep aux, head 1) followed
by "running" (VERB, the ROOT). -/
def tokIs : Token :=
  { text := "is", pos := "AUX", tag := "VBZ", «lemma» := "be"
    is_punct := false, is_space := false, is_stop := true
    dep := "aux", head := 1 }

/-- Token "running" (VERB, ROOT). -/
def tokRunning : Token :=
  { text := "running", pos := "VERB", tag := "VBG", «lemma» := "run"
    is_punct := false, is_space := false, is_stop := false
    dep := "ROOT", head := 1 }

/-- The two-token scenario document. -/
def isRunningDoc : List Token := [tokIs, tokRunning]

/-- Witness for C3: on the "is running" scenario the single verb phrase
at index 1 has text "is running" and root "running". -/
theorem claim_C3_witness :
    (extract_phrases isRunningDoc []).filter
        (fun p => p.type == "verb_phrase" && p.start == 1) =
      [{ text := "is running", type := "verb_phrase", root := "running"
         start := 1, «end» := 2 }] := by
  have h := claim_C3 isRunningDoc [] 1 tokRunning (by rfl) (by rfl)
  rw [h]
  decide

/-- C9: on a sequence with no VERB-tagged token, the output contains no
verb phrase, and the noun phrases are exactly the relayed chunker spans. -/
theorem claim_C9 (doc : List Token) (chunks : List NounChunk)
    (h : ∀ t ∈ doc, ¬t.pos = "VERB") :
    (extract_phrases doc chunks).filter (fun p => p.type == "verb_phrase") = [] ∧
    (extract_phrases doc chunks).filter (fun p => p.type == "noun_phrase") =
      chunks.map nounPhraseOf := by
  have hverb : (doc.enum.filter fun p => p.2.pos == "VERB") = [] := by
    rw [List.filter_eq_nil_iff]
    intro a ha
    have hmem : a.2 ∈ (doc.enum).map Prod.snd := List.mem_map_of_mem _ ha
    rw [List.enum_eq_enumFrom, List.enumFrom_map_snd] at hmem
    simp [h a.2 hmem]
  constructor
  · rw [verb_filter_extract, hverb]
    rfl
  · unfold extract_phrases
    rw [hverb, List.map_nil, List.append_nil, List.filter_eq_self.mpr]
    intro a ha
    obtain ⟨c, _, rfl⟩ := List.mem_map.mp ha
    simp [nounPhraseOf]

/-- A verb with no ROOT elsewhere: "sleeps" (VERB, ROOT, head 0). -/
def tokSleeps : Token :=
  { text := "sleeps", pos := "VERB", tag := "VBZ", «lemma» := "sleep"
    is_punct := false, is_space := false, is_stop := false
    dep := "ROOT", head := 0 }

/-- A one-token noun chunk covering "fox". -/
def foxChunk : NounChunk :=
  { text := "fox", root := "fox", start := 0, «end» := 1 }

/-- Witness for C9 on a VERB-free document with one noun chunk. -/
theorem claim_C9_witness :
    (extract_phrases [tokFox] [foxChunk]).filter
      (fun p => p.type == "verb_phrase") = [] ∧
    (extract_phrases [tokFox] [foxChunk]).filter
      (fun p => p.type == "noun_phrase") =
      [{ text := "fox", type := "noun_phrase", root := "fox"
         start := 0, «end» := 1 }] := by
  have h := claim_C9 [tokFox] [foxChunk]
    (by intro t ht; simp at ht; subst ht; decide)
  exact ⟨h.1, by rw [h.2]; decide⟩

/-- C10: in the output list no verb phrase ever precedes a noun phrase
(every entry after a verb phrase is again a verb phrase), and the verb
phrases' start indices are strictly increasing and are exactly the
positions of the VERB tokens — the original left-to-right order. -/
theorem claim_C10 (doc : List Token) (chunks : List NounChunk) :
    (extract_phrases doc chunks).Pairwise
      (fun p q => p.type = "verb_phrase" → q.type = "verb_phrase") ∧
    List.Sorted (· < ·)
      (((extract_phrases doc chunks).filter
          (fun p => p.type == "verb_phrase")).map Phrase.start) ∧
    (∀ i : Nat,
      i ∈ ((extract_phrases doc chunks).filter
          (fun p => p.type == "verb_phrase")).map Phrase.start ↔
        ∃ t : Token, doc.get? i = some t ∧ t.pos = "VERB") := by
  have hstarts : ((extract_phrases doc chunks).filter
      (fun p => p.type == "verb_phrase")).map Phrase.start =
      (doc.enum.filter fun p => p.2.pos == "VERB").map Prod.fst := by
    rw [verb_filter_extract, List.map_map]
    rfl
  refine ⟨?_, ?_, ?_⟩
  · unfold extract_phrases
    rw [List.pairwise_append]
    refine ⟨?_, ?_, ?_⟩
    · rw [List.pairwise_map]
      exact pairwise_trivial
        (fun a b h => absurd h (by simp [nounPhraseOf])) chunks
    · rw [List.pairwise_map]
      exact pairwise_trivial (fun a b _ => rfl) _
    · intro a _ b hb
      obtain ⟨p, _, rfl⟩ := List.mem_map.mp hb
      intro _
      rfl
  · rw [hstarts]
    have hsub : ((doc.enum.filter fun p => p.2.pos == "VERB").map Prod.fst).Sublist
        (doc.enum.map Prod.fst) :=
      List.Sublist.map Prod.fst (List.filter_sublist doc.enum)
    have hrange : doc.enum.map Prod.fst = List.range doc.length := by
      rw [List.enum_eq_enumFrom, List.enumFrom_map_fst, List.range_eq_range']
    rw [hrange] at hsub
    exact List.Pairwise.sublist hsub (List.sorted_lt_range doc.length)
  · intro i
    rw [hstarts]
    constructor
    · intro hi
      obtain ⟨p, hp, rfl⟩ := List.mem_map.mp hi
      obtain ⟨hpe, hpv⟩ := List.mem_filter.mp hp
      refine ⟨p.2, ?_, by simpa using hpv⟩
      rw [List.get?_eq_getElem?]
      exact List.mem_enum_iff_getElem?.mp hpe
    · rintro ⟨t, hget, hpos⟩
      refine List.mem_map.mpr ⟨(i, t), List.mem_filter.mpr ⟨?_, by simp [hpos]⟩, rfl⟩
      rw [List.mem_enum_iff_getElem?]
      rw [List.get?_eq_getElem?] at hget
      exact hget

/-! ## Claims about `analyze_sentence_structure` -/

/-- Counterexample to C1 as stated: on the non-empty sequence
`[tokFox]` (dependency label "nsubj", so no ROOT token) the operation
does not return null root fields — the indexing of the empty
comprehension fails with an IndexError. -/
theorem claim_C1_cex :
    (∀ t ∈ [tokFox], ¬t.dep = "ROOT") ∧
    analyze_sentence_structure [tokFox] =
      Except.error ("IndexError: list index out of range") := by
  constructor
  · intro t ht
    simp at ht
    subst ht
    decide
  · rfl

/-- C1 (amended): on a sequence with no ROOT-labelled token,
`analyze_sentence_structure` returns null root fields only when the
sequence is empty; on a non-empty sequence it fails with an IndexError
(raised by indexing the empty list comprehension). -/
theorem claim_C1 (doc : List Token) (h : ∀ t ∈ doc, ¬t.dep = "ROOT") :
    (doc = [] → analyze_sentence_structure doc =
      Except.ok { root := none, root_pos := none, dependencies := []
                  sentence_length := 0 }) ∧
    (doc ≠ [] → analyze_sentence_structure doc =
      Except.error ("IndexError: list index out of range")) := by
  constructor
  · rintro rfl
    rfl
  · intro hne
    have hfilter : doc.filter (fun t => t.dep == "ROOT") = [] := by
      rw [List.filter_eq_nil_iff]
      intro t ht
      simp [h t ht]
    have hie : doc.isEmpty = false := by
      cases doc with
      | nil => exact absurd rfl hne
      | cons x xs => rfl
    unfold analyze_sentence_structure
    rw [hie, hfilter]
    rfl

/-- Witness for the amended C1 at the one-token no-ROOT sequence. -/
theorem claim_C1_witness :
    analyze_sentence_structure [tokFox] =
      Except.error ("IndexError: list index out of range") :=
  (claim_C1 [tokFox]
    (by intro t ht; simp at ht; subst ht; decide)).2 (by simp)

/-- C7: whenever `analyze_sentence_structure` returns a structure, its
`sentence_length` is the full token count (whitespace and punctuation
included), while `get_pos_statistics.total_words` counts only eligible
tokens; with at least one whitespace or punctuation token present,
`total_words < sentence_length`. -/
theorem claim_C7 (doc : List Token) (s : SentenceStructure)
    (h : analyze_sentence_structure doc = Except.ok s) :
    s.sentence_length = doc.length ∧
    (get_pos_statistics doc).total_words = (doc.filter eligible).length ∧
    ((∃ t ∈ doc, t.is_space = true ∨ t.is_punct = true) →
      (get_pos_statistics doc).total_words < s.sentence_length) := by
  have hlen : s.sentence_length = doc.length := by
    unfold analyze_sentence_structure at h
    split at h
    · simp only [Except.ok.injEq] at h
      rw [← h]
    · split at h
      · simp at h
      · simp only [Except.ok.injEq] at h
        rw [← h]
  have htot : (get_pos_statistics doc).total_words =
      (doc.filter eligible).length := by
    have h2 := foldl_statsStep_snd doc ([], 0)
    simpa using h2
  refine ⟨hlen, htot, ?_⟩
  rintro ⟨t, hmem, hsp⟩
  obtain ⟨l1, l2, rfl⟩ := List.append_of_mem hmem
  have ht : eligible t = false := by
    rcases hsp with hs | hp
    · simp [eligible, hs]
    · simp [eligible, hp]
  rw [hlen, htot]
  rw [List.filter_append, List.filter_cons, ht]
  simp only [Bool.false_eq_true, if_false]
  have g1 := List.length_filter_le eligible l1
  have g2 := List.length_filter_le eligible l2
  rw [List.length_append, List.length_append, List.length_cons]
  omega

/-- Token "." (PUNCT), attached to the verb at index 0. -/
def tokDot : Token :=
  { text := ".", pos := "PUNCT", tag := ".", «lemma» := "."
    is_punct := true, is_space := false, is_stop := false
    dep := "punct", head := 0 }

/-- The structure returned for the document ["sleeps", "."]. -/
def sleepsStruct : SentenceStructure :=
  { root := some ("sleeps"), root_pos := some ("VERB")
    dependencies :=
      [{ word := "sleeps", dep := "ROOT", head := "sleeps", pos := "VERB" },
       { word := ".", dep := "punct", head := "sleeps", pos := "PUNCT" }]
    sentence_length := 2 }

/-- Witness for C7 on a two-token document with one punctuation token. -/
theorem claim_C7_witness :
    analyze_sentence_structure [tokSleeps, tokDot] = Except.ok sleepsStruct ∧
    (get_pos_statistics [tokSleeps, tokDot]).total_words <
      sleepsStruct.sentence_length :=
  ⟨by rfl,
   (claim_C7 [tokSleeps, tokDot] sleepsStruct (by rfl)).2.2
     ⟨tokDot, by simp, Or.inr rfl⟩⟩

/-- A token claiming a head outside its one-token sequence. -/
def tokBadHead : Token :=
  { text := "ran", pos := "VERB", tag := "VBD", «lemma» := "run"
    is_punct := false, is_space := false, is_stop := false
    dep := "dobj", head := 99 }

/-- Counterexample to C8 as stated: on a sequence whose only token claims
head index 99 (outside the sequence), `extract_phrases` and
`get_pos_statistics` return ordinary output — no operation reports a
"malformed input" condition. -/
theorem claim_C8_cex :
    List.length [tokBadHead] ≤ tokBadHead.head ∧
    extract_phrases [tokBadHead] [] =
      [{ text := "ran", type := "verb_phrase", root := "ran"
         start := 0, «end» := 1 }] ∧
    get_pos_statistics [tokBadHead] =
      { total_words := 1, pos_counts := [("VERB", 1)]
        pos_percentages := [("VERB", 100)], unique_pos_tags := 1 } := by
  refine ⟨by decide, by decide, ?_⟩
  simp [get_pos_statistics, statsStep, updateCount, eligible, tokBadHead]

/-- C8 (amended): the operations perform no malformed-input detection:
on a sequence containing a token whose head reference lies outside the
sequence, `extract_phrases` still returns only ordinary noun/verb
phrases and `get_pos_statistics` still returns the ordinary counts. -/
theorem claim_C8 (doc : List Token) (chunks : List NounChunk) (t : Token)
    (_hmem : t ∈ doc) (_hbad : doc.length ≤ t.head) :
    ((extract_phrases doc chunks).all
      (fun p => p.type == "noun_phrase" || p.type == "verb_phrase")) = true ∧
    (get_pos_statistics doc).total_words = (doc.filter eligible).length := by
  constructor
  · rw [List.all_eq_true]
    intro p hp
    unfold extract_phrases at hp
    rcases List.mem_append.mp hp with h1 | h2
    · obtain ⟨c, _, rfl⟩ := List.mem_map.mp h1
      simp [nounPhraseOf]
    · obtain ⟨q, _, rfl⟩ := List.mem_map.mp h2
      simp [verbPhraseOf]
  · have h2 := foldl_statsStep_snd doc ([], 0)
    simpa using h2

/-- Witness for the amended C8 at the bad-head one-token sequence. -/
theorem claim_C8_witness :
    ((extract_phrases [tokBadHead] []).all
      (fun p => p.type == "noun_phrase" || p.type == "verb_phrase")) = true ∧
    (get_pos_statistics [tokBadHead]).total_words =
      (([tokBadHead]).filter eligible).length :=
  claim_C8 [tokBadHead] [] tokBadHead (by simp) (by decide)
